import Mathlib

/-!
Verification of the AStock-AI-Agent analysis-task orchestration and
progress-streaming engine against its natural-language specification.

The repository ships the web frontend (TypeScript, under
`src/web-app/frontend`) while the backend engine (scheduler, progress
tracker, artifact store, task registry, conversational stream engine) is
not part of the checked-in sources.  Definitions below are therefore of
two kinds:

* shallow embeddings of frontend code, translated directly from the
  TypeScript sources (`client.ts`, `AnalysisPage.tsx`, the chat page);
* models of the backend engine whose doc comments start with
  `Modelled from the spec:`, faithful to the specification's wording,
  used for claims whose deciding code is absent from the sources.
-/

/-! ## Frontend data model (from `src/web-app/frontend/src/api/client.ts`) -/

/-- The `status` field of the `TaskStatus` interface in `client.ts` is the
union type `'pending' | 'running' | 'completed' | 'failed'`. -/
inductive TaskStatusV where
  | pending
  | running
  | completed
  | failed
deriving DecidableEq, Repr

/-- String rendering of each member of the `TaskStatus.status` union type. -/
def TaskStatusV.toStr : TaskStatusV → String
  | .pending => "pending"
  | .running => "running"
  | .completed => "completed"
  | .failed => "failed"

/-- The literal members of the `status` union type of `TaskStatus` in
`client.ts` (lines 130-141). -/
def taskStatusValues : List String :=
  ["pending", "running", "completed", "failed"]

/-! ## Pipeline definition (from `AnalysisPage.tsx`, `TEAMS` / `ALL_STEPS`) -/

/-- One team of the analysis pipeline as declared in `AnalysisPage.tsx`:
a display name and a list of (key, display name) steps. -/
structure TeamDef where
  tname : String
  steps : List (String × String)
deriving DecidableEq, Repr

/-- The `TEAMS` constant of `AnalysisPage.tsx` (lines 12-48): four teams
with 4, 3, 4 and 1 steps respectively. -/
def TEAMS : List TeamDef :=
  [ { tname := "分析师团队",
      steps := [("market_analyst", "市场分析师"),
                ("social_analyst", "情绪分析师"),
                ("news_analyst", "新闻分析师"),
                ("fundamentals_analyst", "基本面分析师")] },
    { tname := "研究团队",
      steps := [("bull_researcher", "看涨研究员"),
                ("bear_researcher", "看跌研究员"),
                ("research_manager", "研究主管")] },
    { tname := "风控团队",
      steps := [("risky_manager", "激进风控"),
                ("conservative_manager", "保守风控"),
                ("neutral_manager", "中立风控"),
                ("risk_manager", "风险主管")] },
    { tname := "综合报告",
      steps := [("consolidation", "生成报告")] } ]

/-- `ALL_STEPS` of `AnalysisPage.tsx` (line 51): the flattened list of all
step keys of `TEAMS`. -/
def ALL_STEPS : List String :=
  TEAMS.foldr (fun t acc => t.steps.map (fun s => s.1) ++ acc) []

/-- The step keys of team `i` of `TEAMS` (empty list when out of range). -/
def teamSteps (i : Nat) : List String :=
  ((TEAMS.getD i { tname := "", steps := [] }).steps).map (fun s => s.1)

/-- `ANALYST_REPORT_MAP` of `AnalysisPage.tsx` (lines 54-59): analyst step
key to intermediate report kind. -/
def ANALYST_REPORT_MAP : List (String × String) :=
  [("market_analyst", "market_report"),
   ("social_analyst", "sentiment_report"),
   ("news_analyst", "news_report"),
   ("fundamentals_analyst", "fundamentals_report")]

/-! ## Status polling (from `AnalysisPage.tsx`, `pollStatus`, lines 92-126) -/

/-- The observable effect of one iteration of `pollStatus` on the polling
loop: whether the 2-second interval was cleared, whether the task result
was fetched, and whether the error message was recorded. -/
structure PollEffect where
  clearedInterval : Bool
  fetchedResult : Bool
  recordedError : Bool
deriving DecidableEq, Repr

/-- One iteration of `pollStatus` in `AnalysisPage.tsx` (lines 95-116):
on `status === 'completed'` it fetches the task result and clears the
interval; on `status === 'failed'` it records the error and clears the
interval; on any other fetched status it does nothing and the interval
keeps firing. -/
def pollStatusStep (status : String) : PollEffect :=
  if status = "completed" then
    { clearedInterval := true, fetchedResult := true, recordedError := false }
  else if status = "failed" then
    { clearedInterval := true, fetchedResult := false, recordedError := true }
  else
    { clearedInterval := false, fetchedResult := false, recordedError := false }

/-! ## SSE stream reader (from the chat page, `handleSubmit`, lines 100-143)

The reader keeps a string `buffer`; on each received chunk it appends the
decoded chunk to the buffer, splits on `'\n'`, pops the last piece back
into the buffer, and handles each remaining complete line: lines starting
with `"data: "` have their payload (from index 6) JSON-parsed, a parse
failure being logged and skipped.  We embed the reader over `List Char`
and keep the JSON parser abstract (`parse : List Char → Option α`). -/

/-- Splitting state: the complete lines seen so far and the trailing piece
after the last newline (the reader's `buffer`). -/
def splitStep (c : Char) (s : List (List Char) × List Char) :
    List (List Char) × List Char :=
  if c = '\n' then ([] :: s.1, s.2)
  else
    match s.1 with
    | [] => ([], c :: s.2)
    | l :: ls => ((c :: l) :: ls, s.2)

/-- `splitLines s = (lines, rest)` is `s.split('\n')` with the last piece
popped off into `rest`, exactly as lines 109-110 of `handleSubmit` do. -/
def splitLines : List Char → List (List Char) × List Char
  | [] => ([], [])
  | c :: cs => splitStep c (splitLines cs)

/-- How the split of a concatenation merges the splits of the pieces: the
trailing piece of the left split glues onto the first line (or trailing
piece) of the right split. -/
def mergeSplit (a b : List (List Char) × List Char) :
    List (List Char) × List Char :=
  match b.1 with
  | [] => (a.1, a.2 ++ b.2)
  | l :: ls => (a.1 ++ (a.2 ++ l) :: ls, b.2)

/-- One `reader.read()` iteration of `handleSubmit`: append the chunk to
the buffer, split off the complete lines, keep the trailing piece. -/
def feedSSE (st : List (List Char) × List Char) (chunk : List Char) :
    List (List Char) × List Char :=
  let r := splitLines (st.2 ++ chunk)
  (st.1 ++ r.1, r.2)

/-- The whole read loop of `handleSubmit` over a list of chunks, starting
from `buffer = ''`; returns all complete lines handled, in order, and the
final buffer content. -/
def feedAllSSE (chunks : List (List Char)) : List (List Char) × List Char :=
  chunks.foldl feedSSE ([], [])

/-- Concatenation of all chunks: the underlying un-chunked stream. -/
def concatAll : List (List Char) → List Char
  | [] => []
  | c :: cs => c ++ concatAll cs

/-- `line.startsWith('data: ')` of `handleSubmit` line 113. -/
def isDataLine (l : List Char) : Bool :=
  ("data: ".toList).isPrefixOf l

/-- `line.slice(6)` of `handleSubmit` line 115: the JSON payload. -/
def ssePayload (l : List Char) : List Char := l.drop 6

/-- Handling of one complete line by `handleSubmit` (lines 112-141): a
non-`data: ` line is ignored; a `data: ` line is parsed, a parse failure
is skipped (caught and logged), a parse success yields one event. -/
def handleLine {α : Type} (parse : List Char → Option α) (l : List Char) :
    List α :=
  if isDataLine l then
    match parse (ssePayload l) with
    | some e => [e]
    | none => []
  else []

/-- Handling of a list of complete lines, in order. -/
def handleLines {α : Type} (parse : List Char → Option α) :
    List (List Char) → List α
  | [] => []
  | l :: ls => handleLine parse l ++ handleLines parse ls

/-! ## Progress Tracker (backend; modelled from the spec, section 4.2)

The backend engine is not part of the checked-in sources; the Progress
Tracker below is modelled from the specification's wording. -/

/-- Status of a parallel-analyst entry: `status ∈ {running, completed}`. -/
inductive AnalystStatus where
  | running
  | completed
deriving DecidableEq, Repr

/-- Modelled from the spec: the `Progress` record of section 3 —
`{current_step?, completed_steps (ordered, insertion order = completion
order), active_analysts: list of {key, status}, total_steps}`. -/
structure Progress where
  current_step : Option String
  completed_steps : List String
  active_analysts : List (String × AnalystStatus)
  total_steps : Nat
deriving DecidableEq, Repr

/-- The steps of the declared-parallel team: the first team of `TEAMS`
(the four analysts, the ones rendered through `active_analysts` by
`AnalysisPage.tsx`). -/
def parallelTeamSteps : List String := teamSteps 0

/-- Modelled from the spec: `markStepStarted(key)` of the Progress
Tracker — sets `current_step`, or adds an `active_analysts` entry with
status running if the step belongs to the declared-parallel team (at most
once per key). -/
def markStepStarted (p : Progress) (key : String) : Progress :=
  if parallelTeamSteps.contains key then
    if (p.active_analysts.map (fun e => e.1)).contains key then p
    else { p with active_analysts :=
             p.active_analysts ++ [(key, AnalystStatus.running)] }
  else { p with current_step := some key }

/-- Modelled from the spec: `markStepCompleted(key)` of the Progress
Tracker — appends to `completed_steps`, a duplicate completion being a
no-op rather than an error, and flips the matching `active_analysts`
entry to completed. -/
def markStepCompleted (p : Progress) (key : String) : Progress :=
  if p.completed_steps.contains key then p
  else
    { p with
      completed_steps := p.completed_steps ++ [key],
      active_analysts :=
        p.active_analysts.map
          (fun e => if e.1 = key then (e.1, AnalystStatus.completed) else e) }

/-- The invariant of section 3: `completed_steps` has no duplicates and
only holds keys declared in the pipeline definition. -/
def progressInv (p : Progress) : Prop :=
  p.completed_steps.Nodup ∧ ∀ k ∈ p.completed_steps, k ∈ ALL_STEPS

/-! ## Artifact Store (backend; modelled from the spec, section 4.3) -/

/-- Modelled from the spec: an `Artifact` — `{task_id, kind,
display_name, content}` (the key lives beside it in the store). -/
structure Artifact where
  display_name : String
  content : String
deriving DecidableEq, Repr

/-- Modelled from the spec: the artifact store, a mapping from
`(task_id, kind)` to content. -/
abbrev ArtifactStore : Type := List ((String × String) × Artifact)

/-- Lookup of the artifact stored under `(task_id, kind)`. -/
def lookupArt : ArtifactStore → String → String → Option Artifact
  | [], _, _ => none
  | e :: rest, t, k => if e.1 = (t, k) then some e.2 else lookupArt rest t k

/-- The engine-invariant error of section 7 raised on a duplicate write. -/
inductive EngineError where
  | duplicateArtifactWrite
deriving DecidableEq, Repr

/-- Modelled from the spec: `write(task_id, kind, artifact)` —
exactly-once per `(task_id, kind)`, a second write for the same key is
rejected as a logic error. -/
def writeArt (s : ArtifactStore) (t k : String) (a : Artifact) :
    Except EngineError ArtifactStore :=
  match lookupArt s t k with
  | some _ => Except.error EngineError.duplicateArtifactWrite
  | none => Except.ok (s ++ [((t, k), a)])

/-- Result of reading an artifact: produced, or not yet produced — the
latter is a regular result, not an error, so UIs can poll early. -/
inductive ReadResult where
  | produced (a : Artifact)
  | notProduced
deriving DecidableEq, Repr

/-- Modelled from the spec: `read(task_id, kind)` — returns the artifact
or the non-error result notProduced. -/
def readArt (s : ArtifactStore) (t k : String) : ReadResult :=
  match lookupArt s t k with
  | some a => ReadResult.produced a
  | none => ReadResult.notProduced

/-! ## Task Registry (backend; modelled from the spec, section 4.4) -/

/-- Modelled from the spec: the five-valued task status of section 3,
`status ∈ {pending, running, completed, failed, cancelled}`. -/
inductive TStatus where
  | pending
  | running
  | completed
  | failed
  | cancelled
deriving DecidableEq, Repr

/-- A status is terminal when the task is completed, failed or
cancelled. -/
def TStatus.isTerminal : TStatus → Bool
  | .completed => true
  | .failed => true
  | .cancelled => true
  | _ => false

/-- Modelled from the spec: a `Task` record of section 3 (the opaque id
is the registry key). -/
structure RTask where
  ticker : String
  display_name : String
  as_of_date : String
  status : TStatus
  created_at : Nat
  completed_at : Option Nat
  error : Option String
deriving DecidableEq, Repr

/-- Modelled from the spec: the Task Registry's task table. -/
abbrev Registry : Type := List (String × RTask)

/-- Lookup of a task by id. -/
def lookupTask : Registry → String → Option RTask
  | [], _ => none
  | e :: rest, tid => if e.1 = tid then some e.2 else lookupTask rest tid

/-- Replace the entry of one task id, leaving every other entry alone. -/
def updateTask : Registry → String → RTask → Registry
  | [], _, _ => []
  | e :: rest, tid, t =>
    if e.1 = tid then (tid, t) :: rest else e :: updateTask rest tid t

/-- The cancel endpoint always reports success. -/
inductive CancelResult where
  | success
deriving DecidableEq, Repr

/-- Modelled from the spec: `cancel(task_id)` of the Task Registry —
always succeeds and is idempotent: a task already in a terminal state is
left untouched (a no-op, not an error); a non-terminal task is
force-marked cancelled. -/
def cancelTask (reg : Registry) (tid : String) : CancelResult × Registry :=
  match lookupTask reg tid with
  | none => (CancelResult.success, reg)
  | some t =>
    if t.status.isTerminal then (CancelResult.success, reg)
    else (CancelResult.success,
          updateTask reg tid { t with status := TStatus.cancelled })

/-! ## Conversational Stream Engine (backend; modelled from the spec, 4.5) -/

/-- An event of the conversational channel: `{thinking|tool|error}`
intermediate events, and the terminal `done` carrying the final answer
content and a conversation id, or `error` carrying a message (this
matches the event shapes consumed by the chat page). -/
inductive ChatEvent where
  | thinking (content : String)
  | tool (content : String)
  | error (message : String)
  | done (content : String) (conversation_id : String)
deriving DecidableEq, Repr

/-- Whether an event is terminal (`done` or `error`). -/
def ChatEvent.isTerminal : ChatEvent → Bool
  | .done _ _ => true
  | .error _ => true
  | _ => false

/-- An internal step of the engine while answering one query: a thinking
step or a tool call. -/
inductive QueryAction where
  | think (content : String)
  | callTool (content : String)
deriving DecidableEq, Repr

/-- The outcome of one query: a final answer, or a failure with a
user-facing message. -/
inductive QueryOutcome where
  | answer (content : String)
  | failure (message : String)
deriving DecidableEq, Repr

/-- The event emitted for one internal step. -/
def eventOfAction : QueryAction → ChatEvent
  | .think s => ChatEvent.thinking s
  | .callTool s => ChatEvent.tool s

/-- The single terminal event of a query: `done` with the answer content
and the conversation id, or `error` with the message. -/
def terminalEvent (convId : String) : QueryOutcome → ChatEvent
  | .answer c => ChatEvent.done c convId
  | .failure m => ChatEvent.error m

/-- Modelled from the spec: the event stream the Conversational Stream
Engine emits for one query — one ordered event per intermediate state (a
thinking or tool event per internal step, in order), followed by exactly
one terminal event; an error terminates the stream with no subsequent
done. -/
def emitEvents (steps : List QueryAction) (convId : String)
    (out : QueryOutcome) : List ChatEvent :=
  steps.map eventOfAction ++ [terminalEvent convId out]

/-- The state machine `received → thinking* → (tool-call → thinking*)* →
{done | error}` as a predicate on event lists: every event but the last
is a non-terminal thinking or tool event (any interleaving of those
matches the regular expression), and the list ends with exactly one
terminal event. -/
def validStream : List ChatEvent → Bool
  | [] => false
  | [e] => e.isTerminal
  | e :: rest => !e.isTerminal && validStream rest

/-! ## Pipeline Scheduler dispatch order (backend; modelled from the
spec, sections 4.1 and 5)

The scheduler executes the teams of `TEAMS` in their fixed order; within
a team the steps run concurrently, so their start order and their
terminal (completion) order are arbitrary.  A schedule is modelled as,
per team, the order in which its steps start and the order in which they
reach a terminal state; the trace of a whole run is the concatenation of
the team traces, a team's steps all starting and terminating before the
next team begins. -/

/-- A scheduling event: a step begins executing, or reaches a terminal
state (completed or failed-but-tolerated). -/
inductive SchedEvent where
  | started (key : String)
  | terminal (key : String)
deriving DecidableEq, Repr

/-- Per-team schedule: the order the team's steps started in and the
order they reached a terminal state in (each a permutation of the team's
declared step keys). -/
abbrev TeamSched : Type := List String × List String

/-- Modelled from the spec: the events of one team's execution — all of
its steps start and reach a terminal state while the team runs. -/
def teamTrace (p : TeamSched) : List SchedEvent :=
  p.1.map SchedEvent.started ++ p.2.map SchedEvent.terminal

/-- Modelled from the spec: the trace of a whole run — teams execute in
the fixed order, team N+1 only after team N is fully terminal. -/
def schedTrace : List TeamSched → List SchedEvent
  | [] => []
  | p :: ps => teamTrace p ++ schedTrace ps

/-- A schedule is valid for the pipeline when it has one entry per team
of `TEAMS`, whose start order and terminal order are permutations of
that team's declared step keys. -/
def validSched (plan : List TeamSched) : Bool :=
  plan.length = TEAMS.length &&
    (List.range TEAMS.length).all
      (fun i =>
        ((plan.getD i ([], [])).1.isPerm (teamSteps i)) &&
        ((plan.getD i ([], [])).2.isPerm (teamSteps i)))

/-- The index of the team a step key belongs to (the first team whose
declared steps hold the key). -/
def teamOfKey (k : String) : Option Nat :=
  (List.range TEAMS.length).find? (fun i => (teamSteps i).contains k)

/-! ## Full-run engine model (backend; modelled from the spec, section 2
control flow, over the pipeline declared in `AnalysisPage.tsx`)

Each of the four analyst steps produces its intermediate report (the
`ANALYST_REPORT_MAP` kinds of `AnalysisPage.tsx`); the consolidation step
produces the final report (`final_report`, the default report type of
`client.ts` and the report browser); the research and risk steps feed the
debate and produce no archived artifact of their own. -/

/-- Lookup in an association list of strings. -/
def lookupPair : List (String × String) → String → Option String
  | [], _ => none
  | e :: rest, k => if e.1 = k then some e.2 else lookupPair rest k

/-- The report kind a step produces, if any: the analyst steps map
through `ANALYST_REPORT_MAP`, the consolidation step produces
`final_report`. -/
def produces (key : String) : Option String :=
  match lookupPair ANALYST_REPORT_MAP key with
  | some r => some r
  | none => if key = "consolidation" then some ("final_report") else none

/-- Modelled from the spec: the state the engine threads through one
task's run — the task's Progress, the task-keyed artifact store, the
durable archive keyed by (ticker, date, kind), and the task status. -/
structure EngineState where
  progress : Progress
  store : ArtifactStore
  archive : List ((String × String × String) × Artifact)
  status : TStatus
deriving Repr

/-- Modelled from the spec: executing one step — mark it started, run its
callback (an opaque unit of work producing its declared artifact kind),
write the artifact to the store, mark the step completed. -/
def runStep (tid : String) (st : EngineState) (key : String) : EngineState :=
  let p1 := markStepStarted st.progress key
  let store1 :=
    match produces key with
    | some r => st.store ++ [((tid, r), { display_name := r, content := key })]
    | none => st.store
  { st with
    progress := markStepCompleted p1 key,
    store := store1 }

/-- The initial engine state of a freshly created task. -/
def initState : EngineState :=
  { progress :=
      { current_step := none, completed_steps := [],
        active_analysts := [], total_steps := ALL_STEPS.length },
    store := [], archive := [], status := TStatus.running }

/-- Modelled from the spec: a full run of one analysis task — the teams
of the pipeline execute in order, each step updating Progress and the
artifact store; on completion every artifact of the task is copied into
the durable archive keyed by (ticker, date) and the task is marked
completed. -/
def runTask (tid ticker date : String) : EngineState :=
  let st :=
    TEAMS.foldl
      (fun st team => team.steps.foldl (fun st s => runStep tid st s.1) st)
      initState
  { st with
    archive := st.store.map (fun e => ((ticker, date, e.1.2), e.2)),
    status := TStatus.completed }

/-! ## Sample values used by witnesses -/

/-- A sample progress state with one completed analyst step. -/
def sampleProgress : Progress :=
  { current_step := none,
    completed_steps := ["market_analyst"],
    active_analysts := [("market_analyst", AnalystStatus.completed)],
    total_steps := 12 }

/-- A sample registry holding one completed task. -/
def sampleRegistry : Registry :=
  [("task-1",
    { ticker := "600519", display_name := "", as_of_date := "2026-10-11",
      status := TStatus.completed, created_at := 0,
      completed_at := some 1, error := none })]

/-- The schedule that starts and finishes every team's steps in
declaration order. -/
def declOrderSched : List TeamSched :=
  TEAMS.map (fun t => (t.steps.map (fun s => s.1), t.steps.map (fun s => s.1)))

/-- A sample event parser for witnesses: accepts exactly the one-character
payloads. -/
def sampleParse : List Char → Option (List Char) :=
  fun l => if l.length = 1 then some l else none

/-- The report kinds a completed run leaves in the durable archive. -/
def archiveKinds : List String :=
  ["market_report", "sentiment_report", "news_report",
   "fundamentals_report", "final_report"]

/-! ## Claims -/

/-- C1, counterexample: the claim says a cancelled task is observable
through the task-status interface with `status = cancelled`, but
`cancelled` is not among the members of the `status` union type of the
`TaskStatus` interface in `client.ts`. -/
theorem c1_cancelled_not_observable :
    (taskStatusValues.contains ("cancelled")) = false := by
  rfl

/-- C1 (amended): the `status` field of the task-status interface is
always one of the four values pending, running, completed, failed; a
cancelled status is not representable there. -/
theorem c1_status_is_one_of_four (s : TaskStatusV) :
    (taskStatusValues.contains s.toStr) = true ∧
    (s.toStr == "cancelled") = false := by
  cases s <;> exact ⟨rfl, rfl⟩

/-- C4: `markStepCompleted` is idempotent — for every progress state and
every step key already present in `completed_steps`, completing it again
leaves the state unchanged (and the operation is total, so no error is
raised). -/
theorem c4_markStepCompleted_idempotent (p : Progress) (k : String)
    (h : p.completed_steps.contains k = true) :
    markStepCompleted p k = p := by
  unfold markStepCompleted
  rw [if_pos h]

/-- C4 witness at a concrete progress state and step key. -/
theorem c4_markStepCompleted_idempotent_witness :
    sampleProgress.completed_steps.contains ("market_analyst") = true ∧
    markStepCompleted sampleProgress ("market_analyst") = sampleProgress :=
  ⟨by decide,
   c4_markStepCompleted_idempotent sampleProgress ("market_analyst") (by decide)⟩

/-- Appending a fresh entry makes it findable: helper for C5. -/
theorem lookupArt_append_self (s : ArtifactStore) (t k : String)
    (a : Artifact) (h : lookupArt s t k = none) :
    lookupArt (s ++ [((t, k), a)]) t k = some a := by
  induction s with
  | nil => simp [lookupArt]
  | cons e rest ih =>
    unfold lookupArt at h ⊢
    by_cases he : e.1 = (t, k)
    · simp [he] at h
    · simp only [List.cons_append, he, if_false]
      exact ih (by simpa [he] using h)

/-- C5: for every `(task_id, kind)` key, reading before the artifact is
produced returns the non-error result notProduced, a first write
succeeds, and a second write to the same key is rejected with the
engine-invariant duplicate-write error instead of overwriting. -/
theorem c5_store_write_once_read_early (s : ArtifactStore) (t k : String)
    (a b : Artifact) (h : lookupArt s t k = none) :
    readArt s t k = ReadResult.notProduced ∧
    ∃ s2, writeArt s t k a = Except.ok s2 ∧
      writeArt s2 t k b = Except.error EngineError.duplicateArtifactWrite := by
  refine ⟨by simp [readArt, h], s ++ [((t, k), a)], by simp [writeArt, h], ?_⟩
  simp [writeArt, lookupArt_append_self s t k a h]

/-- C5 witness: the empty store at a concrete key. -/
theorem c5_store_write_once_read_early_witness :
    lookupArt [] ("task-1") ("market_report") = none ∧
    (readArt [] ("task-1") ("market_report") = ReadResult.notProduced ∧
     ∃ s2,
       writeArt [] ("task-1") ("market_report") (Artifact.mk ("m") ("c")) =
         Except.ok s2 ∧
       writeArt s2 ("task-1") ("market_report") (Artifact.mk ("m") ("d")) =
         Except.error EngineError.duplicateArtifactWrite) :=
  ⟨by rfl,
   c5_store_write_once_read_early [] ("task-1") ("market_report")
     (Artifact.mk ("m") ("c")) (Artifact.mk ("m") ("d")) (by rfl)⟩

/-- C6: cancelling a task whose status is already terminal (completed,
failed or cancelled) succeeds and is a no-op — the registry, hence the
task's status and every other task, is left unchanged. -/
theorem c6_cancel_terminal_noop (reg : Registry) (tid : String) (t : RTask)
    (hfound : lookupTask reg tid = some t)
    (hterm : t.status.isTerminal = true) :
    cancelTask reg tid = (CancelResult.success, reg) := by
  unfold cancelTask
  rw [hfound]
  simp [hterm]

/-- C6 witness: cancelling the completed task of the sample registry. -/
theorem c6_cancel_terminal_noop_witness :
    lookupTask sampleRegistry ("task-1") =
      some { ticker := "600519", display_name := "", as_of_date := "2026-10-11",
             status := TStatus.completed, created_at := 0,
             completed_at := some 1, error := none } ∧
    cancelTask sampleRegistry ("task-1") = (CancelResult.success, sampleRegistry) :=
  ⟨by rfl,
   c6_cancel_terminal_noop sampleRegistry ("task-1") _ (by rfl) (by rfl)⟩

/-- C9: the poll handler clears the 2-second interval exactly on a
fetched status of completed (fetching the task result) or failed
(recording the error); every other status string — cancelled included —
leaves the interval running. -/
theorem c9_poll_stop_exactly_on_completed_or_failed (s : String)
    (h1 : s ≠ "completed") (h2 : s ≠ "failed") :
    pollStatusStep ("completed") =
      { clearedInterval := true, fetchedResult := true, recordedError := false } ∧
    pollStatusStep ("failed") =
      { clearedInterval := true, fetchedResult := false, recordedError := true } ∧
    pollStatusStep s =
      { clearedInterval := false, fetchedResult := false, recordedError := false } := by
  refine ⟨rfl, rfl, ?_⟩
  unfold pollStatusStep
  rw [if_neg h1, if_neg h2]

/-- C9 witness: a backend status of cancelled keeps the polling loop
running. -/
theorem c9_poll_stop_witness :
    ("cancelled" : String) ≠ "completed" ∧ ("cancelled" : String) ≠ "failed" ∧
    (pollStatusStep ("completed") =
      { clearedInterval := true, fetchedResult := true, recordedError := false } ∧
     pollStatusStep ("failed") =
      { clearedInterval := true, fetchedResult := false, recordedError := true } ∧
     pollStatusStep ("cancelled") =
      { clearedInterval := false, fetchedResult := false, recordedError := false }) :=
  ⟨by decide, by decide,
   c9_poll_stop_exactly_on_completed_or_failed ("cancelled")
     (by decide) (by decide)⟩

/-- The event emitted for an internal step is never terminal. -/
theorem eventOfAction_not_terminal (a : QueryAction) :
    (eventOfAction a).isTerminal = false := by
  cases a <;> rfl

/-- A stream of non-terminal events closed by one terminal event matches
the state machine. -/
theorem validStream_append_terminal (pre : List ChatEvent) (t : ChatEvent)
    (hpre : ∀ e ∈ pre, e.isTerminal = false) (ht : t.isTerminal = true) :
    validStream (pre ++ [t]) = true := by
  induction pre with
  | nil => simpa [validStream]
  | cons e rest ih =>
    have he : e.isTerminal = false := hpre e (List.mem_cons_self e rest)
    have hrest : ∀ x ∈ rest, x.isTerminal = false :=
      fun x hx => hpre x (List.mem_cons_of_mem e hx)
    cases rest with
    | nil => simp [validStream, he, ht]
    | cons f rest2 =>
      simp only [List.cons_append, validStream, he]
      simpa using ih hrest

/-- C2: for every conversational query — whatever internal thinking and
tool-call steps it takes and however it ends — the emitted event sequence
matches `received → thinking* → (tool-call → thinking*)* → {done|error}`
(every sequence of thinking and tool events matches that regular
expression): each non-terminal event is a thinking or tool event, the
stream ends with exactly one terminal event, which is a done event
carrying the final answer content and the conversation id on success and
an error event carrying the message on failure, and no event — in
particular no done — follows an error event. -/
theorem c2_stream_matches_state_machine (steps : List QueryAction)
    (convId : String) (out : QueryOutcome) :
    validStream (emitEvents steps convId out) = true ∧
    (emitEvents steps convId out).getLast? = some (terminalEvent convId out) ∧
    ((emitEvents steps convId out).dropLast.all
      (fun e => !e.isTerminal)) = true := by
  have hterm : (terminalEvent convId out).isTerminal = true := by
    cases out <;> rfl
  have hpre : ∀ e ∈ steps.map eventOfAction, e.isTerminal = false := by
    intro e he
    rcases List.mem_map.mp he with ⟨a, _, rfl⟩
    exact eventOfAction_not_terminal a
  refine ⟨validStream_append_terminal _ _ hpre hterm, ?_, ?_⟩
  · unfold emitEvents
    rw [List.getLast?_append]
    rfl
  · unfold emitEvents
    rw [List.dropLast_append_of_ne_nil]
    · simp only [List.dropLast_single, List.append_nil, List.all_eq_true]
      intro e he
      simp [hpre e he]
    · simp

/-- C3: a progress state satisfying the invariant keeps satisfying it
under the mutating operations: after completing a declared pipeline step,
`completed_steps` still has no duplicates and still only holds declared
step keys, and the old list is a prefix of the new one (entries are never
removed or reordered, the list only grows); marking a step started never
touches `completed_steps` at all. -/
theorem c3_completed_steps_invariant (p : Progress) (k : String)
    (hinv : progressInv p) (hk : k ∈ ALL_STEPS) :
    progressInv (markStepCompleted p k) ∧
    (∃ t, (markStepCompleted p k).completed_steps =
            p.completed_steps ++ t) ∧
    (markStepStarted p k).completed_steps = p.completed_steps := by
  obtain ⟨hnd, hsub⟩ := hinv
  refine ⟨?_, ?_, ?_⟩
  · unfold markStepCompleted
    by_cases hc : p.completed_steps.contains k = true
    · rw [if_pos hc]
      exact ⟨hnd, hsub⟩
    · rw [if_neg hc]
      have hkmem : k ∉ p.completed_steps := by
        intro hmem
        exact hc (List.elem_eq_true_of_mem hmem)
      constructor
      · simpa [List.nodup_append, hkmem] using hnd
      · intro x hx
        rcases List.mem_append.mp hx with hx1 | hx2
        · exact hsub x hx1
        · rcases List.mem_singleton.mp hx2 with rfl
          exact hk
  · unfold markStepCompleted
    by_cases hc : p.completed_steps.contains k = true
    · rw [if_pos hc]
      exact ⟨[], by simp⟩
    · rw [if_neg hc]
      exact ⟨[k], rfl⟩
  · unfold markStepStarted
    by_cases h1 : parallelTeamSteps.contains k = true
    · rw [if_pos h1]
      by_cases h2 : (p.active_analysts.map (fun e => e.1)).contains k = true
      · rw [if_pos h2]
      · rw [if_neg h2]
    · rw [if_neg h1]

/-- C3 witness: completing a declared step on a concrete valid progress
state. -/
theorem c3_completed_steps_invariant_witness :
    progressInv sampleProgress ∧ ("news_analyst" ∈ ALL_STEPS) ∧
    (progressInv (markStepCompleted sampleProgress ("news_analyst")) ∧
     (∃ t, (markStepCompleted sampleProgress ("news_analyst")).completed_steps =
             sampleProgress.completed_steps ++ t) ∧
     (markStepStarted sampleProgress ("news_analyst")).completed_steps =
       sampleProgress.completed_steps) :=
  ⟨by constructor <;> decide, by decide,
   c3_completed_steps_invariant sampleProgress ("news_analyst")
     (by constructor <;> decide) (by decide)⟩

set_option maxHeartbeats 1000000 in
/-- C7, counterexample: the pipeline declared in `AnalysisPage.tsx` has
12 steps, not 6, so a full run's `completed_steps` grows to length 12 —
at 6 completed steps the progress bar shows 50%, not completion. -/
theorem c7_counterexample_twelve_steps :
    ALL_STEPS.length = 12 ∧
    ((runTask ("t1") ("600519") ("2026-10-11")).progress.completed_steps.length
      == 6) = false := by
  have h : (runTask ("t1") ("600519") ("2026-10-11")).progress.completed_steps =
      ALL_STEPS := by
    simp [runTask, runStep, markStepCompleted, markStepStarted, initState,
          TEAMS, parallelTeamSteps, teamSteps, produces, lookupPair,
          ANALYST_REPORT_MAP, ALL_STEPS]
  refine ⟨rfl, ?_⟩
  rw [h]
  rfl

set_option maxHeartbeats 1000000 in
/-- C7 (amended): for a full analysis task that runs to completion,
progress shows exactly the 4 analyst entries in `active_analysts`, all
completed; `completed_steps` grows to the pipeline's full length of 12
in completion order; the final status is completed; and the durable
archive holds the 5 produced artifacts (the four analyst reports and the
final report) keyed by (ticker, date). -/
theorem c7_full_run (tid ticker date : String) :
    (runTask tid ticker date).progress.active_analysts =
      parallelTeamSteps.map (fun k => (k, AnalystStatus.completed)) ∧
    parallelTeamSteps.length = 4 ∧
    (runTask tid ticker date).progress.completed_steps = ALL_STEPS ∧
    ALL_STEPS.length = 12 ∧
    (runTask tid ticker date).status = TStatus.completed ∧
    (runTask tid ticker date).archive.map (fun e => e.1) =
      archiveKinds.map (fun r => (ticker, date, r)) ∧
    archiveKinds.length = 5 := by
  refine ⟨?_, rfl, ?_, rfl, rfl, rfl, rfl⟩ <;>
    simp [runTask, runStep, markStepCompleted, markStepStarted, initState,
          TEAMS, parallelTeamSteps, teamSteps, produces, lookupPair,
          ANALYST_REPORT_MAP, ALL_STEPS]

/-- The trace of a concatenation of team schedules is the concatenation
of the traces. -/
theorem schedTrace_append (a b : List TeamSched) :
    schedTrace (a ++ b) = schedTrace a ++ schedTrace b := by
  induction a with
  | nil => rfl
  | cons p ps ih => simp [schedTrace, ih]

/-- A start event occurs in a team's trace exactly for its started
steps. -/
theorem started_mem_teamTrace (p : TeamSched) (k : String) :
    SchedEvent.started k ∈ teamTrace p ↔ k ∈ p.1 := by
  simp [teamTrace]

/-- A terminal event occurs in a team's trace exactly for its terminated
steps. -/
theorem terminal_mem_teamTrace (p : TeamSched) (k : String) :
    SchedEvent.terminal k ∈ teamTrace p ↔ k ∈ p.2 := by
  simp [teamTrace]

/-- An event of a run's trace belongs to some team's trace. -/
theorem mem_schedTrace (e : SchedEvent) (ps : List TeamSched) :
    e ∈ schedTrace ps ↔ ∃ p ∈ ps, e ∈ teamTrace p := by
  induction ps with
  | nil => simp [schedTrace]
  | cons p rest ih => simp [schedTrace, ih]

/-- An in-range `getD` is a member of the list. -/
theorem getD_mem_of_lt {α : Type} (l : List α) (i : Nat) (d : α)
    (h : i < l.length) : l.getD i d ∈ l := by
  induction l generalizing i with
  | nil => simp at h
  | cons x xs ih =>
    cases i with
    | zero => simp [List.getD]
    | succ j =>
      simp only [List.getD_cons_succ]
      exact List.mem_cons_of_mem x (ih j (by simpa using h))

/-- `getD` below the cut of a `take` reads the original list. -/
theorem take_getD {α : Type} (l : List α) (n i : Nat) (d : α)
    (h : i < n) : (l.take n).getD i d = l.getD i d := by
  induction l generalizing n i with
  | nil => simp
  | cons x xs ih =>
    cases n with
    | zero => omega
    | succ m =>
      cases i with
      | zero => simp
      | succ j => simpa using ih m j (by omega)

/-- A member of `take n` sits at an index below `n` of the original
list. -/
theorem mem_take_getD {α : Type} (l : List α) (n : Nat) (p : α) (d : α)
    (h : p ∈ l.take n) : ∃ m, m < n ∧ m < l.length ∧ l.getD m d = p := by
  induction l generalizing n with
  | nil => simp at h
  | cons x xs ih =>
    cases n with
    | zero => simp at h
    | succ m =>
      simp only [List.take_succ_cons] at h
      rcases List.mem_cons.mp h with rfl | h2
      · exact ⟨0, by omega, by simp, rfl⟩
      · rcases ih m h2 with ⟨j, hj1, hj2, hj3⟩
        exact ⟨j + 1, by omega, by simpa using hj2, by simpa using hj3⟩

/-- Every declared step key resolves to the team it is declared in: the
teams of the pipeline have pairwise disjoint step keys. -/
theorem teamOfKey_all_consistent :
    ((List.range TEAMS.length).all
      (fun i => (teamSteps i).all (fun k => teamOfKey k == some i))) = true := by
  decide

/-- No step key is declared by two different teams. -/
theorem teamOfKey_unique (i j : Nat) (k : String)
    (hi : i < TEAMS.length) (hj : j < TEAMS.length)
    (hki : k ∈ teamSteps i) (hkj : k ∈ teamSteps j) : i = j := by
  have h := teamOfKey_all_consistent
  rw [List.all_eq_true] at h
  have h1 := h i (List.mem_range.mpr hi)
  have h2 := h j (List.mem_range.mpr hj)
  rw [List.all_eq_true] at h1 h2
  have e1 : teamOfKey k = some i := by simpa using h1 k hki
  have e2 : teamOfKey k = some j := by simpa using h2 k hkj
  rw [e1] at e2
  exact Option.some.inj e2

/-- C8: for every valid schedule of the pipeline — teams in the fixed
order, each team's steps starting and reaching terminal states in
arbitrary order within the team — and every pair of consecutive teams N
and N+1, the run's trace splits after team N's block; every step of team
N has its terminal event inside that block, and no step of team N+1 has
its start event there: team N+1 never begins before team N is fully
terminal, while within a team the start and terminal orders are
unconstrained permutations. -/
theorem c8_team_ordering (plan : List TeamSched) (hv : validSched plan = true)
    (i : Nat) (hi : i + 1 < TEAMS.length) (k k' : String)
    (hk : k ∈ teamSteps i) (hk' : k' ∈ teamSteps (i + 1)) :
    schedTrace plan =
      schedTrace (plan.take (i + 1)) ++ schedTrace (plan.drop (i + 1)) ∧
    SchedEvent.terminal k ∈ schedTrace (plan.take (i + 1)) ∧
    SchedEvent.started k' ∉ schedTrace (plan.take (i + 1)) := by
  unfold validSched at hv
  rw [Bool.and_eq_true] at hv
  obtain ⟨hlenb, hall⟩ := hv
  have hlen : plan.length = TEAMS.length := of_decide_eq_true hlenb
  rw [List.all_eq_true] at hall
  refine ⟨?_, ?_, ?_⟩
  · rw [← schedTrace_append, List.take_append_drop]
  · have hiL : i < TEAMS.length := by omega
    have hperm := hall i (List.mem_range.mpr hiL)
    rw [Bool.and_eq_true] at hperm
    have hperm2 : (plan.getD i ([], [])).2.Perm (teamSteps i) :=
      List.isPerm_iff.mp hperm.2
    have hkp : k ∈ (plan.getD i ([], [])).2 := hperm2.mem_iff.mpr hk
    have hmem : plan.getD i ([], []) ∈ plan.take (i + 1) := by
      rw [← take_getD plan (i + 1) i ([], []) (by omega)]
      refine getD_mem_of_lt _ i _ ?_
      rw [List.length_take]
      omega
    exact (mem_schedTrace _ _).mpr
      ⟨_, hmem, (terminal_mem_teamTrace _ k).mpr hkp⟩
  · intro hbad
    rcases (mem_schedTrace _ _).mp hbad with ⟨p, hp, hpe⟩
    rcases mem_take_getD plan (i + 1) p ([], []) hp with ⟨m, hm1, hm2, hm3⟩
    have hmL : m < TEAMS.length := by omega
    have hperm := hall m (List.mem_range.mpr hmL)
    rw [Bool.and_eq_true] at hperm
    have hperm1 : (plan.getD m ([], [])).1.Perm (teamSteps m) :=
      List.isPerm_iff.mp hperm.1
    rw [hm3] at hperm1
    have hk'm : k' ∈ teamSteps m :=
      hperm1.mem_iff.mp ((started_mem_teamTrace p k').mp hpe)
    have hmeq : m = i + 1 := teamOfKey_unique m (i + 1) k' hmL hi hk'm hk'
    omega

/-- C8 witness: the declaration-order schedule, the analyst team and the
research team. -/
theorem c8_team_ordering_witness :
    validSched declOrderSched = true ∧ 0 + 1 < TEAMS.length ∧
    ("market_analyst" ∈ teamSteps 0) ∧ ("bull_researcher" ∈ teamSteps 1) ∧
    (schedTrace declOrderSched =
       schedTrace (declOrderSched.take 1) ++
         schedTrace (declOrderSched.drop 1) ∧
     SchedEvent.terminal ("market_analyst") ∈
       schedTrace (declOrderSched.take 1) ∧
     SchedEvent.started ("bull_researcher") ∉
       schedTrace (declOrderSched.take 1)) :=
  ⟨by decide, by decide, by decide, by decide,
   c8_team_ordering declOrderSched (by decide) 0 (by decide)
     ("market_analyst") ("bull_researcher") (by decide) (by decide)⟩

/-- Processing one more character commutes with gluing a second split on
the right. -/
theorem splitStep_mergeSplit (c : Char)
    (a b : List (List Char) × List Char) :
    splitStep c (mergeSplit a b) = mergeSplit (splitStep c a) b := by
  obtain ⟨a1, a2⟩ := a
  obtain ⟨b1, b2⟩ := b
  by_cases hc : c = '\n'
  · cases b1 with
    | nil => simp [splitStep, mergeSplit, hc]
    | cons l ls => simp [splitStep, mergeSplit, hc]
  · cases a1 with
    | nil =>
      cases b1 with
      | nil => simp [splitStep, mergeSplit, hc]
      | cons l ls => simp [splitStep, mergeSplit, hc]
    | cons l0 ls0 =>
      cases b1 with
      | nil => simp [splitStep, mergeSplit, hc]
      | cons l ls => simp [splitStep, mergeSplit, hc]

/-- Gluing onto the empty split is the identity. -/
theorem mergeSplit_nil_left (b : List (List Char) × List Char) :
    mergeSplit ([], []) b = b := by
  obtain ⟨b1, b2⟩ := b
  cases b1 with
  | nil => simp [mergeSplit]
  | cons l ls => simp [mergeSplit]

/-- The split of a concatenation is the merge of the splits. -/
theorem splitLines_append (x y : List Char) :
    splitLines (x ++ y) = mergeSplit (splitLines x) (splitLines y) := by
  induction x with
  | nil => simp [splitLines, mergeSplit_nil_left]
  | cons c cs ih =>
    show splitStep c (splitLines (cs ++ y)) =
      mergeSplit (splitStep c (splitLines cs)) (splitLines y)
    rw [ih, splitStep_mergeSplit]

/-- A newline-free string splits into no complete line and itself as the
buffered piece. -/
theorem splitLines_no_newline (l : List Char) (h : ∀ c ∈ l, c ≠ '\n') :
    splitLines l = ([], l) := by
  induction l with
  | nil => rfl
  | cons c cs ih =>
    have hc : c ≠ '\n' := h c (List.mem_cons_self c cs)
    have hcs : ∀ x ∈ cs, x ≠ '\n' := fun x hx => h x (List.mem_cons_of_mem c hx)
    show splitStep c (splitLines cs) = ([], c :: cs)
    rw [ih hcs]
    simp [splitStep, hc]

/-- The buffered piece left by a split never contains a newline. -/
theorem splitLines_snd_no_newline (l : List Char) :
    ∀ c ∈ (splitLines l).2, c ≠ '\n' := by
  induction l with
  | nil => intro c hc; simp [splitLines] at hc
  | cons x xs ih =>
    show ∀ c ∈ (splitStep x (splitLines xs)).2, c ≠ '\n'
    by_cases hx : x = '\n'
    · simpa [splitStep, hx] using ih
    · cases h1 : (splitLines xs).1 with
      | nil =>
        intro c hc
        simp only [splitStep, hx, if_false, h1] at hc
        rcases List.mem_cons.mp hc with rfl | hc2
        · exact hx
        · exact ih c hc2
      | cons l ls =>
        intro c hc
        simp only [splitStep, hx, if_false, h1] at hc
        exact ih c hc

/-- Already-emitted lines pass through a merge unchanged. -/
theorem mergeSplit_shift (L1 : List (List Char)) (P1 : List Char)
    (x : List (List Char) × List Char) :
    mergeSplit (L1, P1) x =
      (L1 ++ (mergeSplit ([], P1) x).1, (mergeSplit ([], P1) x).2) := by
  obtain ⟨x1, x2⟩ := x
  cases x1 with
  | nil => simp [mergeSplit]
  | cons l ls => simp [mergeSplit]

/-- The read loop from any newline-free buffer emits exactly the lines of
the buffered-plus-remaining stream. -/
theorem feedAll_general (chunks : List (List Char)) :
    ∀ acc buf, (∀ c ∈ buf, c ≠ '\n') →
      chunks.foldl feedSSE (acc, buf) =
        (acc ++ (splitLines (buf ++ concatAll chunks)).1,
         (splitLines (buf ++ concatAll chunks)).2) := by
  induction chunks with
  | nil =>
    intro acc buf hbuf
    simp [List.foldl, concatAll, splitLines_no_newline buf hbuf]
  | cons c rest ih =>
    intro acc buf hbuf
    have hstep : feedSSE (acc, buf) c =
        (acc ++ (splitLines (buf ++ c)).1, (splitLines (buf ++ c)).2) := rfl
    rw [List.foldl_cons, hstep,
        ih _ _ (splitLines_snd_no_newline (buf ++ c))]
    have hassoc : buf ++ concatAll (c :: rest) =
        (buf ++ c) ++ concatAll rest := by
      show buf ++ (c ++ concatAll rest) = (buf ++ c) ++ concatAll rest
      rw [List.append_assoc]
    rw [hassoc, splitLines_append (buf ++ c) (concatAll rest),
        splitLines_append ((splitLines (buf ++ c)).2) (concatAll rest),
        splitLines_no_newline _ (splitLines_snd_no_newline (buf ++ c))]
    rw [mergeSplit_shift (splitLines (buf ++ c)).1 (splitLines (buf ++ c)).2
          (splitLines (concatAll rest))]
    simp [List.append_assoc]

/-- Line handling distributes over concatenation of line lists. -/
theorem handleLines_append {α : Type} (parse : List Char → Option α)
    (a b : List (List Char)) :
    handleLines parse (a ++ b) =
      handleLines parse a ++ handleLines parse b := by
  induction a with
  | nil => rfl
  | cons l ls ih =>
    show handleLine parse l ++ handleLines parse (ls ++ b) =
      (handleLine parse l ++ handleLines parse ls) ++ handleLines parse b
    rw [ih, List.append_assoc]

/-- C10: the chat stream reader is invariant to chunking — for every
chunking of the byte stream, the read loop emits exactly the complete
lines of the whole stream in order (the trailing piece after the last
newline stays buffered), so the handled `data: ` events are those of the
un-chunked stream, each once and in order; and a `data: ` line whose
payload fails to parse contributes nothing while leaving every event
before and after it untouched. -/
theorem c10_sse_chunking {α : Type} (parse : List Char → Option α)
    (chunks : List (List Char)) (pre post : List (List Char))
    (bad : List Char) (h1 : isDataLine bad = true)
    (h2 : parse (ssePayload bad) = none) :
    feedAllSSE chunks = splitLines (concatAll chunks) ∧
    handleLines parse (feedAllSSE chunks).1 =
      handleLines parse (splitLines (concatAll chunks)).1 ∧
    handleLines parse (pre ++ bad :: post) =
      handleLines parse pre ++ handleLines parse post := by
  have hmain : feedAllSSE chunks = splitLines (concatAll chunks) := by
    unfold feedAllSSE
    rw [feedAll_general chunks [] [] (by intro c hc; simp at hc)]
    rfl
  refine ⟨hmain, by rw [hmain], ?_⟩
  rw [handleLines_append]
  show handleLines parse pre ++
      (handleLine parse bad ++ handleLines parse post) = _
  have hbad : handleLine parse bad = [] := by
    unfold handleLine
    rw [if_pos h1, h2]
  rw [hbad, List.nil_append]

/-- C10 witness: a two-chunk stream split mid-line, and an unparseable
`data: ` line between two good ones. -/
theorem c10_sse_chunking_witness :
    isDataLine ("data: ab".toList) = true ∧
    sampleParse (ssePayload ("data: ab".toList)) = none ∧
    (feedAllSSE [("data: x\nda".toList), ("ta: y\nz".toList)] =
       splitLines (concatAll [("data: x\nda".toList), ("ta: y\nz".toList)]) ∧
     handleLines sampleParse
         (feedAllSSE [("data: x\nda".toList), ("ta: y\nz".toList)]).1 =
       handleLines sampleParse
         (splitLines (concatAll [("data: x\nda".toList), ("ta: y\nz".toList)])).1 ∧
     handleLines sampleParse
         ([("data: x".toList)] ++ ("data: ab".toList) :: [("data: y".toList)]) =
       handleLines sampleParse [("data: x".toList)] ++
       handleLines sampleParse [("data: y".toList)]) :=
  ⟨by decide, rfl,
   c10_sse_chunking sampleParse
     [("data: x\nda".toList), ("ta: y\nz".toList)]
     [("data: x".toList)] [("data: y".toList)] ("data: ab".toList)
     (by decide) rfl⟩
